import Mathlib

/-!
Verification of the food-listing logic of the FoodCircle server.

The server stores food listings and requests as BSON documents in two
MongoDB collections and exposes REST operations over them.  This file
gives a shallow embedding of the data model (documents as association
lists of BSON-like values), of the MongoDB primitives the routes use
(insertOne, updateOne with a set-patch, deleteOne, find with filter and
sort, and the featured-foods aggregation pipeline), and of the route
handlers themselves, and proves properties of the embedded operations.
-/

namespace FoodCircle

/-- JavaScript / BSON double values as produced by the server: NaN, one
of the two infinities, or a finite value (modelled as a rational; the
decimal strings the server parses are exactly representable).  The
repository produces NaN through JavaScript `Number` coercion of
non-numeric strings. -/
inductive JsNum where
  | nan
  | ninf
  | inf
  | val (q : ℚ)
deriving DecidableEq, Repr

/-- Rank of a double in the BSON comparison order: NaN compares below
every other double, then negative infinity, then the finite values,
then positive infinity. -/
def JsNum.rank : JsNum → Nat
  | JsNum.nan => 0
  | JsNum.ninf => 1
  | JsNum.val _ => 2
  | JsNum.inf => 3

/-- BSON less-or-equal comparison of two doubles (NaN least, then
negative infinity, then finite values by numeric order, then positive
infinity).  This is the order MongoDB uses when sorting on a numeric
field. -/
def jnumLe (a b : JsNum) : Bool :=
  match a, b with
  | JsNum.val x, JsNum.val y => decide (x ≤ y)
  | _, _ => decide (a.rank ≤ b.rank)

theorem jnumLe_trans (a b c : JsNum) (h1 : jnumLe a b = true)
    (h2 : jnumLe b c = true) : jnumLe a c = true := by
  cases a <;> cases b <;> cases c <;>
    simp_all [jnumLe, JsNum.rank] <;> linarith

theorem jnumLe_total (a b : JsNum) : jnumLe a b || jnumLe b a := by
  cases a <;> cases b <;> simp_all [jnumLe, JsNum.rank] <;> exact le_total _ _

/-- Numeric value of a list of decimal digit characters, most
significant digit first. -/
def digitsToNat (cs : List Char) : Nat :=
  cs.foldl (fun a c => a * 10 + (c.toNat - 48)) 0

/-- Parses an optional exponent suffix (`e` or `E`, optional sign,
digits) and applies it to the mantissa; succeeds on empty input.  Used
by the decimal parser below. -/
def parseExpPart (q : ℚ) (cs : List Char) : Option ℚ :=
  match cs with
  | [] => some q
  | c :: rest =>
    if c = 'e' ∨ c = 'E' then
      let sd : Bool × List Char :=
        match rest with
        | '+' :: t => (false, t)
        | '-' :: t => (true, t)
        | t => (false, t)
      if sd.2 ≠ [] ∧ sd.2.all Char.isDigit then
        some (q * (10 : ℚ) ^
          (if sd.1 then -(digitsToNat sd.2 : ℤ) else (digitsToNat sd.2 : ℤ)))
      else none
    else none

/-- Parses an unsigned decimal number (digits, optional fractional
part, optional exponent), requiring the whole input to be consumed.
Accepts forms like `3`, `03`, `3.5`, `3.`, `.5`, `1e3`. -/
def parseUnsigned (cs : List Char) : Option ℚ :=
  let ip := cs.takeWhile Char.isDigit
  let r1 := cs.dropWhile Char.isDigit
  match r1 with
  | '.' :: r2 =>
    let fp := r2.takeWhile Char.isDigit
    let r3 := r2.dropWhile Char.isDigit
    if ip = [] ∧ fp = [] then none
    else parseExpPart
      ((digitsToNat ip : ℚ) + (digitsToNat fp : ℚ) / (10 : ℚ) ^ fp.length) r3
  | _ =>
    if ip = [] then none
    else parseExpPart (digitsToNat ip : ℚ) r1

/-- Parses a signed decimal number, requiring the whole input to be
consumed. -/
def parseSigned (cs : List Char) : Option ℚ :=
  match cs with
  | '+' :: t => parseUnsigned t
  | '-' :: t => (parseUnsigned t).map (fun q => -q)
  | t => parseUnsigned t

/-- Models the string-to-double conversion of MongoDB `$convert`
(`to: "double"`): a signed base-10 decimal number, with optional
fractional part and exponent; anything else (e.g. `2 kg`, hexadecimal,
empty string) fails, which the pipeline turns into its `onError`
value. -/
def mongoParseDouble (s : String) : Option ℚ :=
  parseSigned s.toList

/-- BSON values as this server stores and receives them: doubles,
strings, dates (carrying their millisecond time value, NaN for an
invalid date), object ids (modelled as naturals), booleans and null.
A document field that is absent is represented by `Option.none` at the
lookup level, not by a value. -/
inductive Val where
  | num (n : JsNum)
  | str (s : String)
  | date (t : JsNum)
  | oid (k : Nat)
  | bool (b : Bool)
  | null
deriving DecidableEq, Repr

/-- A BSON document: an ordered list of field-name / value pairs. -/
abbrev Doc := List (String × Val)

/-- Value of the first field of the document with the given name, or
`none` when the document has no such field. -/
def getField (d : Doc) (k : String) : Option Val :=
  match d with
  | [] => none
  | (k0, v0) :: rest => if k0 = k then some v0 else getField rest k

/-- MongoDB `$set` of a single field: replaces the first field with the
given name in place, or appends the field at the end when the document
has no such field.  This is also the semantics of assigning a key in a
JavaScript object literal built by spreading. -/
def setField (k : String) (v : Val) (d : Doc) : Doc :=
  match d with
  | [] => [(k, v)]
  | (k0, v0) :: rest =>
    if k0 = k then (k0, v) :: rest else (k0, v0) :: setField k v rest

/-- Applies a whole patch document as a MongoDB `$set`: each field of
the patch is set in order. -/
def applySet (patch : Doc) (d : Doc) : Doc :=
  patch.foldl (fun acc kv => setField kv.1 kv.2 acc) d

/-- The `quantityNumeric` expression of the featured-foods aggregation
pipeline: if the stored quantity is already a number (`$isNumber`) it
is returned unchanged (including NaN); otherwise it is `$convert`-ed to
a double with `onError: 0` and `onNull: 0`, so a missing or null value
and an unparseable string both become 0, a date becomes its
millisecond value, a boolean becomes 0 or 1, and an object id (not
convertible) becomes the `onError` value 0. -/
def quantityNumeric (v : Option Val) : JsNum :=
  match v with
  | some (Val.num n) => n
  | some (Val.str s) =>
    match mongoParseDouble s with
    | some q => JsNum.val q
    | none => JsNum.val 0
  | some (Val.date t) => t
  | some (Val.bool b) => JsNum.val (if b then 1 else 0)
  | some (Val.oid _) => JsNum.val 0
  | some Val.null => JsNum.val 0
  | none => JsNum.val 0

/-- Characters JavaScript string trimming removes before numeric
coercion: ASCII whitespace, vertical tab, form feed, no-break space and
the byte-order mark. -/
def jsWhitespace (c : Char) : Bool :=
  c = ' ' || c = '\t' || c = '\n' || c = '\r' ||
    c.toNat = 11 || c.toNat = 12 || c.toNat = 160 || c.toNat = 65279

/-- Numeric value of a list of hexadecimal digit characters. -/
def hexDigitVal (c : Char) : Nat :=
  if c.isDigit then c.toNat - 48
  else if 'a' ≤ c ∧ c ≤ 'f' then c.toNat - 87
  else c.toNat - 55

/-- Whether a character is a digit in the given base (2, 8 or 16). -/
def isBaseDigit (base : Nat) (c : Char) : Bool :=
  if base = 16 then c.isDigit || ('a' ≤ c && c ≤ 'f') || ('A' ≤ c && c ≤ 'F')
  else '0' ≤ c && c.toNat < 48 + base

/-- Numeric value of digits in the given base. -/
def baseDigitsToNat (base : Nat) (cs : List Char) : Nat :=
  cs.foldl (fun a c => a * base + hexDigitVal c) 0

/-- Models JavaScript `Number` coercion of a string: the string is
trimmed; an empty remainder is 0; `Infinity` forms give the
infinities; `0x`/`0o`/`0b` prefixes give base-16/8/2 integers; a
signed decimal number gives its value; everything else is NaN. -/
def jsStrToNumber (s : String) : JsNum :=
  let t := ((s.toList.dropWhile jsWhitespace).reverse.dropWhile jsWhitespace).reverse
  if t = [] then JsNum.val 0
  else if t = "Infinity".toList ∨ t = "+Infinity".toList then JsNum.inf
  else if t = "-Infinity".toList then JsNum.ninf
  else
    match t with
    | '0' :: b :: ds =>
      let base :=
        if b = 'x' ∨ b = 'X' then some 16
        else if b = 'o' ∨ b = 'O' then some 8
        else if b = 'b' ∨ b = 'B' then some 2
        else none
      match base with
      | some bs =>
        if ds ≠ [] ∧ ds.all (isBaseDigit bs) then
          JsNum.val (baseDigitsToNat bs ds : ℚ)
        else JsNum.nan
      | none =>
        match parseSigned t with
        | some q => JsNum.val q
        | none => JsNum.nan
    | _ =>
      match parseSigned t with
      | some q => JsNum.val q
      | none => JsNum.nan

/-- Models JavaScript `Number(v)` coercion of the values this server
can receive in a JSON body: numbers are unchanged, strings are parsed
as above, booleans become 0 or 1, null becomes 0, a date becomes its
time value and an object id is not numeric. -/
def jsToNumber (v : Val) : JsNum :=
  match v with
  | Val.num n => n
  | Val.str s => jsStrToNumber s
  | Val.bool b => JsNum.val (if b then 1 else 0)
  | Val.null => JsNum.val 0
  | Val.date t => t
  | Val.oid _ => JsNum.nan

/-- JavaScript truthiness of a possibly-absent value, as used by the
required-field checks (`!foodName || !quantity || ...`): NaN, 0, the
empty string, false, null and an absent value are falsy; everything
else is truthy. -/
def truthy (v : Option Val) : Bool :=
  match v with
  | none => false
  | some Val.null => false
  | some (Val.bool b) => b
  | some (Val.str s) => s ≠ ""
  | some (Val.num JsNum.nan) => false
  | some (Val.num (JsNum.val q)) => q ≠ 0
  | some (Val.num _) => true
  | some (Val.date _) => true
  | some (Val.oid _) => true

/-- Models JavaScript `new Date(v)` for the values the server passes to
the `Date` constructor: a number is taken as a millisecond time value,
an existing date keeps its time value, a string is parsed (here: only
plain decimal-number strings are modelled as parseable date input is
never inspected by the verified properties; anything else is an
invalid date, i.e. a date whose time value is NaN). -/
def jsDateOf (v : Val) : JsNum :=
  match v with
  | Val.num n => n
  | Val.date t => t
  | Val.str s =>
    match mongoParseDouble s with
    | some q => JsNum.val q
    | none => JsNum.nan
  | _ => JsNum.nan

theorem getField_setField_self (d : Doc) (k : String) (v : Val) :
    getField (setField k v d) k = some v := by
  induction d with
  | nil => simp [setField, getField]
  | cons kv rest ih =>
    obtain ⟨k0, v0⟩ := kv
    by_cases h : k0 = k <;> simp [setField, getField, h, ih]

theorem getField_setField_ne (d : Doc) (k k2 : String) (v : Val)
    (h : k2 ≠ k) : getField (setField k v d) k2 = getField d k2 := by
  have hk : k ≠ k2 := fun hh => h hh.symm
  induction d with
  | nil => simp [setField, getField, hk]
  | cons kv rest ih =>
    obtain ⟨k0, v0⟩ := kv
    by_cases h0 : k0 = k
    · subst h0
      simp [setField, getField, hk]
    · simp [setField, getField, h0, ih]

theorem setField_eq_self_iff (d : Doc) (k : String) (v : Val) :
    setField k v d = d ↔ getField d k = some v := by
  induction d with
  | nil => simp [setField, getField]
  | cons kv rest ih =>
    obtain ⟨k0, v0⟩ := kv
    by_cases h : k0 = k
    · subst h
      simp [setField, getField, eq_comm]
    · simp [setField, getField, h, ih]

/-- Either a `$set` patch leaves a field untouched, or the field ends
with a value that appears in the patch under that name. -/
theorem getField_applySet_cases (patch : Doc) (d : Doc) (k : String) :
    getField (applySet patch d) k = getField d k ∨
      ∃ v, (k, v) ∈ patch ∧ getField (applySet patch d) k = some v := by
  induction patch generalizing d with
  | nil => exact Or.inl rfl
  | cons kv rest ih =>
    obtain ⟨k0, v0⟩ := kv
    have step : applySet ((k0, v0) :: rest) d = applySet rest (setField k0 v0 d) := rfl
    rw [step]
    rcases ih (setField k0 v0 d) with h | ⟨v, hv, hg⟩
    · by_cases hk : k = k0
      · subst hk
        refine Or.inr ⟨v0, List.mem_cons_self _ _, ?_⟩
        rw [h, getField_setField_self]
      · left
        rw [h, getField_setField_ne _ _ _ _ hk]
    · exact Or.inr ⟨v, List.mem_cons_of_mem _ hv, hg⟩

/-- Rank of a value in the BSON canonical comparison order restricted
to the types this model covers: null, then numbers, then strings, then
object ids, then booleans, then dates. -/
def valRank : Val → Nat
  | Val.null => 0
  | Val.num _ => 1
  | Val.str _ => 2
  | Val.oid _ => 3
  | Val.bool _ => 4
  | Val.date _ => 5

/-- BSON less-or-equal comparison of two values: values of different
types compare by type rank, values of the same type by their payload.
This is the order MongoDB's `sort` uses on a field. -/
def valLe (a b : Val) : Bool :=
  match a, b with
  | Val.num x, Val.num y => jnumLe x y
  | Val.str x, Val.str y => decide (x ≤ y)
  | Val.oid x, Val.oid y => decide (x ≤ y)
  | Val.bool x, Val.bool y => !x || y
  | Val.date x, Val.date y => jnumLe x y
  | _, _ => decide (valRank a ≤ valRank b)

theorem valLe_trans (a b c : Val) (h1 : valLe a b = true)
    (h2 : valLe b c = true) : valLe a c = true := by
  cases a <;> cases b <;> cases c <;>
    first
    | exact jnumLe_trans _ _ _ h1 h2
    | (revert h1 h2; rename_i x y z; cases x <;> cases y <;> cases z <;> decide)
    | (simp_all only [valLe, valRank, decide_eq_true_eq] <;>
       first
       | rfl
       | omega
       | exact le_trans h1 h2)

theorem valLe_total (a b : Val) : valLe a b || valLe b a := by
  cases a <;> cases b <;>
    first
    | exact jnumLe_total _ _
    | (rename_i x y; cases x <;> cases y <;> decide)
    | (simp only [valLe, valRank, Bool.or_eq_true, decide_eq_true_eq] <;>
       first
       | omega
       | exact le_total _ _)

/-- Inserts an element into a list so that it lands before the first
element it compares less-or-equal to.  Together with `sortLe` this
models the store's sort stage. -/
def insertLe (le : α → α → Bool) (x : α) : List α → List α
  | [] => [x]
  | y :: ys => if le x y then x :: y :: ys else y :: insertLe le x ys

/-- Insertion sort; models the store returning the matched documents
ordered by a sort key (a stable comparison sort). -/
def sortLe (le : α → α → Bool) (l : List α) : List α :=
  l.foldr (insertLe le) []

theorem insertLe_perm (le : α → α → Bool) (x : α) (l : List α) :
    List.Perm (insertLe le x l) (x :: l) := by
  induction l with
  | nil => exact List.Perm.refl _
  | cons y ys ih =>
    by_cases h : le x y
    · simp [insertLe, h]
    · simp only [insertLe, h, if_false]
      exact List.Perm.trans (List.Perm.cons y ih) (List.Perm.swap x y ys)

theorem sortLe_perm (le : α → α → Bool) (l : List α) :
    List.Perm (sortLe le l) l := by
  induction l with
  | nil => exact List.Perm.refl _
  | cons y ys ih =>
    exact List.Perm.trans (insertLe_perm le y (sortLe le ys)) (List.Perm.cons y ih)

theorem mem_insertLe (le : α → α → Bool) (x z : α) (l : List α) :
    z ∈ insertLe le x l ↔ z = x ∨ z ∈ l := by
  constructor
  · intro h
    have := (insertLe_perm le x l).mem_iff.mp h
    simpa using this
  · intro h
    apply (insertLe_perm le x l).mem_iff.mpr
    simpa using h

theorem insertLe_sorted (le : α → α → Bool)
    (htrans : ∀ a b c, le a b = true → le b c = true → le a c = true)
    (htot : ∀ a b, le a b || le b a) (x : α) (l : List α)
    (hs : l.Pairwise (fun a b => le a b = true)) :
    (insertLe le x l).Pairwise (fun a b => le a b = true) := by
  induction l with
  | nil => simp [insertLe]
  | cons y ys ih =>
    rcases List.pairwise_cons.mp hs with ⟨hy, hys⟩
    by_cases h : le x y
    · simp only [insertLe, h, if_true]
      refine List.pairwise_cons.mpr ⟨?_, hs⟩
      intro z hz
      rcases List.mem_cons.mp hz with hz | hz
      · subst hz; exact h
      · exact htrans x y z h (hy z hz)
    · simp only [insertLe, h, if_false]
      refine List.pairwise_cons.mpr ⟨?_, ih hys⟩
      intro z hz
      rcases (mem_insertLe le x z ys).mp hz with hz | hz
      · rw [hz]
        have h2 := htot x y
        cases hxy : le x y
        · rw [hxy] at h2
          simpa using h2
        · exact absurd hxy h
      · exact hy z hz

theorem sortLe_sorted (le : α → α → Bool)
    (htrans : ∀ a b c, le a b = true → le b c = true → le a c = true)
    (htot : ∀ a b, le a b || le b a) (l : List α) :
    (sortLe le l).Pairwise (fun a b => le a b = true) := by
  induction l with
  | nil => simp [sortLe]
  | cons y ys ih => exact insertLe_sorted le htrans htot y (sortLe le ys) ih

/-- State of one persistent collection: the documents in natural
(insertion) order together with the next object id the store will
assign. -/
structure StoreSt where
  nextId : Nat
  docs : List Doc
deriving DecidableEq, Repr

/-- Failure responses of the route handlers: a validation failure
(HTTP 400) or a not-found failure (HTTP 404), with the response
message. -/
inductive RouteErr where
  | validation (msg : String)
  | notFound (msg : String)
deriving DecidableEq, Repr

/-- MongoDB `insertOne`: appends the document; when the document has no
`_id` field the driver assigns a fresh object id (placed first).
Returns the new state and the inserted id. -/
def insertDoc (d : Doc) (st : StoreSt) : StoreSt × Val :=
  match getField d "_id" with
  | some v => (⟨st.nextId, st.docs ++ [d]⟩, v)
  | none =>
    (⟨st.nextId + 1, st.docs ++ [("_id", Val.oid st.nextId) :: d]⟩,
      Val.oid st.nextId)

/-- Core of MongoDB `updateOne` with an id filter and a `$set` patch:
the first document whose `_id` equals the filter id is patched.
Returns the new document list, the matched count, and the modified
count (a match whose patch changes no field value counts as matched
but not modified). -/
def updateDocs (idv : Val) (patch : Doc) : List Doc → List Doc × Nat × Nat
  | [] => ([], 0, 0)
  | d :: ds =>
    if getField d "_id" = some idv then
      (applySet patch d :: ds, 1, if applySet patch d = d then 0 else 1)
    else
      let r := updateDocs idv patch ds
      (d :: r.1, r.2)

/-- MongoDB `updateOne` on a store state. -/
def updateOne (idv : Val) (patch : Doc) (st : StoreSt) : StoreSt × Nat × Nat :=
  let r := updateDocs idv patch st.docs
  (⟨st.nextId, r.1⟩, r.2)

/-- Core of MongoDB `deleteOne` with an id filter: removes the first
document whose `_id` equals the filter id; returns the new list and
the deleted count. -/
def deleteDocs (idv : Val) : List Doc → List Doc × Nat
  | [] => ([], 0)
  | d :: ds =>
    if getField d "_id" = some idv then (ds, 1)
    else
      let r := deleteDocs idv ds
      (d :: r.1, r.2)

/-- Whether a stored listing is in the `Available` browse set. -/
def foodAvailable (d : Doc) : Bool :=
  getField d "foodStatus" == some (Val.str "Available")

/-- The required-field check of `POST /foods`:
`!foodName || !quantity || !location || !expireAt || !userName ||
!userEmail` (JavaScript falsiness, so a present-but-falsy field such
as the number 0 counts as missing). -/
def missingRequired (body : Doc) : Bool :=
  !(truthy (getField body "foodName")) ||
  !(truthy (getField body "quantity")) ||
  !(truthy (getField body "location")) ||
  !(truthy (getField body "expireAt")) ||
  !(truthy (getField body "userName")) ||
  !(truthy (getField body "userEmail"))

/-- JavaScript `x || dflt`: the value when truthy, the default
otherwise (also when the field is absent). -/
def jsOrDefault (v : Option Val) (dflt : Val) : Val :=
  if truthy v then v.getD dflt else dflt

/-- JavaScript `Number` coercion of a possibly-absent value
(`Number(undefined)` is NaN). -/
def jsToNumberOpt (v : Option Val) : JsNum :=
  match v with
  | some w => jsToNumber w
  | none => JsNum.nan

/-- JavaScript `new Date(v)` for a possibly-absent value
(`new Date(undefined)` is an invalid date). -/
def jsDateOfOpt (v : Option Val) : JsNum :=
  match v with
  | some w => jsDateOf w
  | none => JsNum.nan

/-- The `newFood` document `POST /foods` builds from the request body:
quantity is coerced to a number, expireAt to a date, the optional
fields default to the empty string, donor fields are copied from the
user fields, foodStatus starts as `Available` and createdAt is the
creation time. -/
def newFoodDoc (body : Doc) (now : ℚ) : Doc :=
  [("foodName", (getField body "foodName").getD Val.null),
   ("foodImage", jsOrDefault (getField body "foodImage") (Val.str "")),
   ("quantity", Val.num (jsToNumberOpt (getField body "quantity"))),
   ("location", (getField body "location").getD Val.null),
   ("expireAt", Val.date (jsDateOfOpt (getField body "expireAt"))),
   ("note", jsOrDefault (getField body "note") (Val.str "")),
   ("donorName", (getField body "userName").getD Val.null),
   ("donorEmail", (getField body "userEmail").getD Val.null),
   ("donorImage", jsOrDefault (getField body "userImage") (Val.str "")),
   ("foodStatus", Val.str "Available"),
   ("createdAt", Val.date (JsNum.val now))]

/-- `POST /foods`: validates the required fields, then inserts the
`newFood` document; answers 400 when a required field is missing or
falsy, otherwise the new state and the inserted id. -/
def createListing (body : Doc) (now : ℚ) (st : StoreSt) :
    Except RouteErr (StoreSt × Val) :=
  if missingRequired body then
    Except.error (RouteErr.validation "Missing required fields")
  else Except.ok (insertDoc (newFoodDoc body now) st)

/-- Normalized quantity of a stored listing (the value the aggregation
pipeline computes into the `quantityNumeric` field). -/
def qnumOf (d : Doc) : JsNum :=
  quantityNumeric (getField d "quantity")

/-- The `$addFields` stage of the featured-foods pipeline: stores the
normalized quantity in the `quantityNumeric` field. -/
def addQNum (d : Doc) : Doc :=
  setField "quantityNumeric" (Val.num (qnumOf d)) d

/-- Sort key of the `$sort` stage (value of the `quantityNumeric`
field, a missing field sorting like null). -/
def sortKeyQN (d : Doc) : Val :=
  (getField d "quantityNumeric").getD Val.null

/-- Descending comparison on the `quantityNumeric` field. -/
def featuredDesc (a b : Doc) : Bool :=
  valLe (sortKeyQN b) (sortKeyQN a)

/-- The inclusion keys of the `$project` stage of the featured-foods
pipeline. -/
def featuredProjKeys : List String :=
  ["foodName", "foodImage", "quantity", "location", "note"]

/-- MongoDB inclusion `$project`: keeps the listed fields in document
order; `_id` is kept by default since the projection does not suppress
it. -/
def projectDoc (keys : List String) (d : Doc) : Doc :=
  d.filter (fun kv => kv.1 == "_id" || keys.contains kv.1)

/-- `GET /featured-foods`, aggregation variant: `$match` on
`foodStatus: Available`, `$addFields` of the normalized quantity,
`$sort` descending on it, `$limit` 6, then the inclusion
`$project`. -/
def getFeaturedAgg (docs : List Doc) : List Doc :=
  ((sortLe featuredDesc ((docs.filter foodAvailable).map addQNum)).take 6).map
    (projectDoc featuredProjKeys)

/-- Sort key of the raw featured variant: the stored `quantity` value
itself, compared in the BSON order (a missing field sorting like
null). -/
def rawQKey (d : Doc) : Val :=
  (getField d "quantity").getD Val.null

/-- Descending BSON comparison on the raw `quantity` field. -/
def rawQDesc (a b : Doc) : Bool :=
  valLe (rawQKey b) (rawQKey a)

/-- `GET /featured-foods`, raw variant: `find` on
`foodStatus: Available`, `sort` descending on the stored `quantity`
value, `limit` 6, no projection. -/
def getFeaturedRaw (docs : List Doc) : List Doc :=
  (sortLe rawQDesc (docs.filter foodAvailable)).take 6

/-- `PUT /foods/request/:id`: `updateOne` setting
`foodStatus: "requested"`; the response reports whether a modification
actually occurred (`modifiedCount > 0`). -/
def markRequested (id : Nat) (st : StoreSt) : StoreSt × Bool :=
  let r := updateOne (Val.oid id) [("foodStatus", Val.str "requested")] st
  (r.1, decide (0 < r.2.2))

/-- `PUT /food/:id`, variant answering 404 when `matchedCount` is zero
(src/index.js): applies the caller-supplied patch as a `$set`. -/
def updateListingMatched (id : Nat) (patch : Doc) (st : StoreSt) :
    Except RouteErr StoreSt :=
  let r := updateOne (Val.oid id) patch st
  if r.2.1 = 0 then Except.error (RouteErr.notFound "Food item not found")
  else Except.ok r.1

/-- `PUT /food/:id`, variant answering 404 when `modifiedCount` is zero
(src/unnamed/part_003): first replaces a truthy `expireAt` patch value
by its parsed date, answering 400 when it is invalid, then applies the
patch as a `$set`. -/
def updateListingModified (id : Nat) (patch : Doc) (st : StoreSt) :
    Except RouteErr StoreSt :=
  if truthy (getField patch "expireAt") then
    let t := jsDateOfOpt (getField patch "expireAt")
    if t = JsNum.nan then
      Except.error (RouteErr.validation "Invalid expiration date format")
    else
      let r := updateOne (Val.oid id) (setField "expireAt" (Val.date t) patch) st
      if r.2.2 = 0 then
        Except.error (RouteErr.notFound "No document updated. It may not exist.")
      else Except.ok r.1
  else
    let r := updateOne (Val.oid id) patch st
    if r.2.2 = 0 then
      Except.error (RouteErr.notFound "No document updated. It may not exist.")
    else Except.ok r.1

/-- `DELETE /food/:id`: `deleteOne`; answers 404 when nothing was
deleted. -/
def deleteListing (id : Nat) (st : StoreSt) : Except RouteErr StoreSt :=
  let r := deleteDocs (Val.oid id) st.docs
  if r.2 = 0 then
    Except.error (RouteErr.notFound "Food item not found or already deleted")
  else Except.ok ⟨st.nextId, r.1⟩

/-- `POST /requests`: inserts the spread of the caller-supplied payload
with `createdAt` set to the creation time (a `createdAt` field of the
payload is overwritten by the spread-then-assign object literal). -/
def createRequest (payload : Doc) (now : ℚ) (st : StoreSt) : StoreSt × Val :=
  insertDoc (setField "createdAt" (Val.date (JsNum.val now)) payload) st

/-- The mutating operations of the food collection, for reachability
arguments: listing creation, the request transition, the
caller-supplied patch update (matchedCount variant) and deletion. -/
inductive Op where
  | create (body : Doc) (now : ℚ)
  | markReq (id : Nat)
  | update (id : Nat) (patch : Doc)
  | remove (id : Nat)

/-- Effect of one operation on the food collection (a failing operation
leaves the store unchanged). -/
def applyOp (st : StoreSt) (op : Op) : StoreSt :=
  match op with
  | Op.create body now =>
    match createListing body now st with
    | Except.ok r => r.1
    | Except.error _ => st
  | Op.markReq id => (markRequested id st).1
  | Op.update id patch =>
    match updateListingMatched id patch st with
    | Except.ok st2 => st2
    | Except.error _ => st
  | Op.remove id =>
    match deleteListing id st with
    | Except.ok st2 => st2
    | Except.error _ => st

/-- Store state reached from the empty store by a sequence of
operations. -/
def applyOps (ops : List Op) (st : StoreSt) : StoreSt :=
  ops.foldl applyOp st

/-- Whether a listing's `foodStatus` is one of the two modelled enum
values. -/
def statusEnumB (d : Doc) : Bool :=
  getField d "foodStatus" == some (Val.str "Available") ||
    getField d "foodStatus" == some (Val.str "requested")

/-- The status invariant: every stored listing's `foodStatus` is
`Available` or `requested`. -/
def statusInvariant (st : StoreSt) : Bool :=
  st.docs.all statusEnumB

/-- A regular-expression atom: a plain character or the any-character
metacharacter. -/
inductive RAtom where
  | achar (c : Char)
  | adot
deriving DecidableEq, Repr

/-- A regular-expression token: an atom matched once, or an atom under
a star (zero or more repetitions). -/
inductive RTok where
  | once (a : RAtom)
  | star (a : RAtom)
deriving DecidableEq, Repr

/-- Case-insensitive atom matching (the `$options: "i"` of the search
filter); the any-character atom does not match a newline, as in the
default PCRE mode MongoDB uses. -/
def atomMatch (a : RAtom) (c : Char) : Bool :=
  match a with
  | RAtom.achar d => d.toLower == c.toLower
  | RAtom.adot => c != '\n'

/-- Regex metacharacters this model does not support as pattern input
(a pattern containing one is rejected, modelling the query failing on
an invalid or unsupported expression); `.` and a well-placed `*` are
supported and are not in this set. -/
def metaOther (c : Char) : Bool :=
  c = '(' || c = ')' || c = '[' || c = ']' || c = '\\' || c = '^' ||
    c = '$' || c = '|' || c = '+' || c = '?' || c = '*' ||
    c.toNat = 123 || c.toNat = 125

/-- Worker of the pattern compiler: carries the previous atom, not yet
emitted because a following `*` would turn it into a star. -/
def parseTokensAux : Option RAtom → List Char → Option (List RTok)
  | some a, [] => some [RTok.once a]
  | none, [] => some []
  | pending, c :: rest =>
    if c = '*' then
      match pending with
      | some a => (parseTokensAux none rest).map (fun ts => RTok.star a :: ts)
      | none => none
    else if metaOther c then none
    else
      let a := if c = '.' then RAtom.adot else RAtom.achar c
      match pending with
      | some b => (parseTokensAux (some a) rest).map (fun ts => RTok.once b :: ts)
      | none => parseTokensAux (some a) rest

/-- Compiles a pattern string into tokens: `.` becomes the
any-character atom, a character followed by `*` becomes a starred
atom, other supported characters match themselves; a pattern using an
unsupported metacharacter (including a leading `*`, invalid in PCRE)
is rejected. -/
def parseTokens (cs : List Char) : Option (List RTok) :=
  parseTokensAux none cs

/-- Whether the token list matches some prefix of the character
list. -/
def rmatch : List RTok → List Char → Bool
  | [], _ => true
  | RTok.once _ :: _, [] => false
  | RTok.once a :: ps, c :: cs => atomMatch a c && rmatch ps cs
  | RTok.star _ :: ps, [] => rmatch ps []
  | RTok.star a :: ps, c :: cs =>
    rmatch ps (c :: cs) || (atomMatch a c && rmatch (RTok.star a :: ps) cs)
termination_by ps cs => (cs.length, ps.length)

/-- Unanchored regex search: whether the token list matches starting at
some position of the character list. -/
def rsearch (ps : List RTok) (cs : List Char) : Bool :=
  match cs with
  | [] => rmatch ps []
  | _ :: t => rmatch ps cs || rsearch ps t

/-- Whether a stored listing passes the `foodName: $regex` filter: its
`foodName` must be a string matched (case-insensitively, unanchored)
by the compiled pattern. -/
def regexFilterDoc (ts : List RTok) (d : Doc) : Bool :=
  match getField d "foodName" with
  | some (Val.str s) => rsearch ts s.toList
  | _ => false

/-- Sort key of the expireAt sort of `GET /available-foods` (a missing
field sorting like null). -/
def expireKey (d : Doc) : Val :=
  (getField d "expireAt").getD Val.null

/-- The expireAt sort stage of `GET /available-foods`: ascending or
descending when requested, otherwise the natural store order. -/
def applyExpireSort (sort : Option String) (l : List Doc) : List Doc :=
  match sort with
  | some s =>
    if s = "asc" then sortLe (fun a b => valLe (expireKey a) (expireKey b)) l
    else if s = "desc" then sortLe (fun a b => valLe (expireKey b) (expireKey a)) l
    else l
  | none => l

/-- `GET /available-foods`: filters on `foodStatus: Available`, adds a
case-insensitive `$regex` filter on `foodName` when a non-empty search
text is given (`none` models the whole query failing on an invalid
regular expression, which the route reports as a 500), and applies the
requested expireAt sort. -/
def listAvailable (search : Option String) (sort : Option String)
    (docs : List Doc) : Option (List Doc) :=
  match search with
  | some s =>
    if s = "" then some (applyExpireSort sort (docs.filter foodAvailable))
    else
      match parseTokens s.toList with
      | none => none
      | some ts =>
        some (applyExpireSort sort
          (docs.filter (fun d => foodAvailable d && regexFilterDoc ts d)))
  | none => some (applyExpireSort sort (docs.filter foodAvailable))

/-- Case-insensitive character-list prefix test. -/
def prefixCI : List Char → List Char → Bool
  | [], _ => true
  | _ :: _, [] => false
  | a :: as, b :: bs => (a.toLower == b.toLower) && prefixCI as bs

/-- Case-insensitive character-list substring test. -/
def substrCI (p : List Char) : List Char → Bool
  | [] => prefixCI p []
  | c :: t => prefixCI p (c :: t) || substrCI p t

/-- Modelled from the spec: the browse filter the specification
describes, plain case-insensitive substring containment of the search
text in the food name ("keeps only listings whose foodName contains it
case-insensitively (substring match, not tokenized search)"). -/
def specContainsCI (hay pat : String) : Bool :=
  substrCI pat.toList hay.toList

/-- Whether a document's `_id` is the given object id. -/
def hasOid (id : Nat) (d : Doc) : Bool :=
  getField d "_id" == some (Val.oid id)

theorem updateDocs_matched_zero_iff (idv : Val) (patch : Doc) (l : List Doc) :
    (updateDocs idv patch l).2.1 = 0 ↔ ∀ d ∈ l, getField d "_id" ≠ some idv := by
  induction l with
  | nil => simp [updateDocs]
  | cons d ds ih =>
    by_cases h : getField d "_id" = some idv
    · simp [updateDocs, h]
    · simp [updateDocs, h, ih]

theorem updateDocs_modified_zero_iff (idv : Val) (patch : Doc) (l : List Doc)
    (hU : l.countP (fun d => getField d "_id" == some idv) ≤ 1) :
    (updateDocs idv patch l).2.2 = 0 ↔
      ∀ d ∈ l, getField d "_id" = some idv → applySet patch d = d := by
  induction l with
  | nil => simp [updateDocs]
  | cons d ds ih =>
    rw [List.countP_cons] at hU
    by_cases h : getField d "_id" = some idv
    · simp only [h, beq_self_eq_true, if_true] at hU
      have hz : ds.countP (fun d => getField d "_id" == some idv) = 0 := by omega
      have hnone : ∀ d2 ∈ ds, ¬ getField d2 "_id" = some idv := by
        intro d2 hd2
        have := List.countP_eq_zero.mp hz d2 hd2
        simpa using this
      constructor
      · intro hm d2 hd2 hid2
        rcases List.mem_cons.mp hd2 with rfl | hd2
        · simp only [updateDocs, h, if_true] at hm
          by_cases hch : applySet patch d2 = d2
          · exact hch
          · simp [hch] at hm
        · exact absurd hid2 (hnone d2 hd2)
      · intro hall
        have := hall d (List.mem_cons_self _ _) h
        simp [updateDocs, h, this]
    · have hU2 : ds.countP (fun d => getField d "_id" == some idv) ≤ 1 := by
        by_cases hb : (getField d "_id" == some idv) = true
        · exact absurd (by simpa using hb) h
        · simp only [hb, if_false] at hU; omega
      constructor
      · intro hm d2 hd2 hid2
        rcases List.mem_cons.mp hd2 with rfl | hd2
        · exact absurd hid2 h
        · simp only [updateDocs, h, if_false] at hm
          exact (ih hU2).mp hm d2 hd2 hid2
      · intro hall
        simp only [updateDocs, h, if_false]
        exact (ih hU2).mpr (fun d2 hd2 hid2 => hall d2 (List.mem_cons_of_mem _ hd2) hid2)

theorem mem_updateDocs (idv : Val) (patch : Doc) (l : List Doc) (d2 : Doc)
    (h : d2 ∈ (updateDocs idv patch l).1) :
    d2 ∈ l ∨ ∃ d ∈ l, d2 = applySet patch d := by
  induction l with
  | nil => simp [updateDocs] at h
  | cons d ds ih =>
    by_cases hd : getField d "_id" = some idv
    · simp only [updateDocs, hd, if_true] at h
      rcases List.mem_cons.mp h with rfl | h
      · exact Or.inr ⟨d, List.mem_cons_self _ _, rfl⟩
      · exact Or.inl (List.mem_cons_of_mem _ h)
    · simp only [updateDocs, hd, if_false] at h
      rcases List.mem_cons.mp h with rfl | h
      · exact Or.inl (List.mem_cons_self _ _)
      · rcases ih h with h | ⟨d3, hd3, he⟩
        · exact Or.inl (List.mem_cons_of_mem _ h)
        · exact Or.inr ⟨d3, List.mem_cons_of_mem _ hd3, he⟩

theorem mem_deleteDocs (idv : Val) (l : List Doc) (d2 : Doc)
    (h : d2 ∈ (deleteDocs idv l).1) : d2 ∈ l := by
  induction l with
  | nil => simp [deleteDocs] at h
  | cons d ds ih =>
    by_cases hd : getField d "_id" = some idv
    · simp only [deleteDocs, hd, if_true] at h
      exact List.mem_cons_of_mem _ h
    · simp only [deleteDocs, hd, if_false] at h
      rcases List.mem_cons.mp h with rfl | h
      · exact List.mem_cons_self _ _
      · exact List.mem_cons_of_mem _ (ih h)

/-- After the request transition, every document carrying the updated
id has status `requested` (assuming at most one document carries the
id, which the store's unique `_id` index guarantees). -/
theorem updateDocs_requested_after (id : Nat) (l : List Doc)
    (hU : l.countP (hasOid id) ≤ 1) (d2 : Doc)
    (h : d2 ∈ (updateDocs (Val.oid id) [("foodStatus", Val.str "requested")] l).1)
    (hid : getField d2 "_id" = some (Val.oid id)) :
    getField d2 "foodStatus" = some (Val.str "requested") := by
  induction l with
  | nil => simp [updateDocs] at h
  | cons d ds ih =>
    rw [List.countP_cons] at hU
    by_cases hd : getField d "_id" = some (Val.oid id)
    · have : hasOid id d = true := by simp [hasOid, hd]
      rw [this] at hU
      simp only [if_true] at hU
      have hz : ds.countP (hasOid id) = 0 := by omega
      simp only [updateDocs, hd, if_true] at h
      rcases List.mem_cons.mp h with rfl | h
      · show getField (applySet [("foodStatus", Val.str "requested")] d) "foodStatus" = _
        exact getField_setField_self d "foodStatus" (Val.str "requested")
      · have := List.countP_eq_zero.mp hz d2 h
        simp [hasOid, hid] at this
    · simp only [updateDocs, hd, if_false] at h
      have hU2 : ds.countP (hasOid id) ≤ 1 := by
        by_cases hb : hasOid id d = true
        · exact absurd (by simpa [hasOid] using hb) hd
        · simp only [hb, if_false] at hU; omega
      rcases List.mem_cons.mp h with rfl | h
      · exact absurd hid hd
      · exact ih hU2 h

theorem getField_filter_kept (d : Doc) (p : String × Val → Bool) (k : String)
    (hp : ∀ v, p (k, v) = true) :
    getField (d.filter p) k = getField d k := by
  induction d with
  | nil => rfl
  | cons kv rest ih =>
    obtain ⟨k0, v0⟩ := kv
    by_cases hk : k0 = k
    · subst hk
      simp [List.filter_cons, hp v0, getField]
    · by_cases hq : p (k0, v0) = true
      · simp [List.filter_cons, hq, getField, hk, ih]
      · simp only [List.filter_cons, hq, if_false, Bool.false_eq_true]
        rw [ih, getField]
        simp [hk]

theorem getField_filter_dropped (d : Doc) (p : String × Val → Bool) (k : String)
    (hp : ∀ v, p (k, v) = false) :
    getField (d.filter p) k = none := by
  induction d with
  | nil => rfl
  | cons kv rest ih =>
    obtain ⟨k0, v0⟩ := kv
    by_cases hk : k0 = k
    · subst hk
      simp [List.filter_cons, hp v0, ih]
    · by_cases hq : p (k0, v0) = true
      · simp [List.filter_cons, hq, getField, hk, ih]
      · simp [List.filter_cons, hq, ih]

theorem pairwise_imp_mem {R S : α → α → Prop} :
    ∀ {l : List α}, (∀ a b, a ∈ l → b ∈ l → R a b → S a b) →
      l.Pairwise R → l.Pairwise S := by
  intro l
  induction l with
  | nil => intro _ _; exact List.Pairwise.nil
  | cons x xs ih =>
    intro himp hp
    rcases List.pairwise_cons.mp hp with ⟨hx, hxs⟩
    refine List.pairwise_cons.mpr ⟨?_, ?_⟩
    · intro b hb
      exact himp x b (List.mem_cons_self _ _) (List.mem_cons_of_mem _ hb) (hx b hb)
    · exact ih (fun a b ha hb =>
        himp a b (List.mem_cons_of_mem _ ha) (List.mem_cons_of_mem _ hb)) hxs

theorem applyExpireSort_perm (sort : Option String) (l : List Doc) :
    List.Perm (applyExpireSort sort l) l := by
  match sort with
  | none => exact List.Perm.refl _
  | some s =>
    by_cases h1 : s = "asc"
    · simp only [applyExpireSort, h1, if_true]
      exact sortLe_perm _ _
    · by_cases h2 : s = "desc"
      · simp only [applyExpireSort, h1, h2, if_false, if_true]
        exact sortLe_perm _ _
      · simp [applyExpireSort, h1, h2]

/-- A pattern character with no regex meaning: neither an unsupported
metacharacter nor the any-character `.` (nor `*`, which is in the
unsupported set when it has no atom to repeat and is consumed as a
star otherwise). -/
def litChar (c : Char) : Bool :=
  !(metaOther c) && c != '.'

/-- The pattern compiler on a list of plain characters, for any pending
atom: the pending atom is emitted once, followed by one once-matched
character atom per pattern character. -/
theorem parseTokensAux_lit (cs : List Char) (h : ∀ c ∈ cs, litChar c) :
    ∀ pending, parseTokensAux pending cs =
      some ((pending.map RTok.once).toList ++
        cs.map (fun c => RTok.once (RAtom.achar c))) := by
  induction cs with
  | nil => intro pending; cases pending <;> simp [parseTokensAux]
  | cons c rest ih =>
    intro pending
    have hc := h c (List.mem_cons_self _ _)
    have hcm : metaOther c = false := by
      simp only [litChar, Bool.and_eq_true, Bool.not_eq_true'] at hc
      exact hc.1
    have hcd : ¬ c = '.' := by
      simp only [litChar, Bool.and_eq_true, bne_iff_ne] at hc
      exact hc.2
    have hcs : ¬ c = '*' := by
      intro he
      rw [he] at hcm
      simp [metaOther] at hcm
    have ihr := ih (fun d hd => h d (List.mem_cons_of_mem _ hd))
    cases pending with
    | some b => simp [parseTokensAux, hcs, hcm, hcd, ihr]
    | none => simp [parseTokensAux, hcs, hcm, hcd, ihr]

/-- A pattern of plain characters compiles to a list of once-matched
character atoms. -/
theorem parseTokens_lit (cs : List Char) (h : ∀ c ∈ cs, litChar c) :
    parseTokens cs = some (cs.map (fun c => RTok.once (RAtom.achar c))) := by
  have := parseTokensAux_lit cs h none
  simpa [parseTokens] using this

theorem rmatch_nil_pat (cs : List Char) : rmatch [] cs = true := by
  cases cs <;> simp [rmatch]

theorem rmatch_once_nil (a : RAtom) (ps : List RTok) :
    rmatch (RTok.once a :: ps) [] = false := by
  simp [rmatch]

theorem rmatch_once_cons (a : RAtom) (ps : List RTok) (c : Char) (cs : List Char) :
    rmatch (RTok.once a :: ps) (c :: cs) = (atomMatch a c && rmatch ps cs) := by
  simp [rmatch]

/-- Matching a plain-character pattern as a prefix is the
case-insensitive prefix test. -/
theorem rmatch_lit (ps cs : List Char) :
    rmatch (ps.map (fun c => RTok.once (RAtom.achar c))) cs = prefixCI ps cs := by
  induction ps generalizing cs with
  | nil => cases cs <;> simp [rmatch_nil_pat, prefixCI]
  | cons p pt ih =>
    cases cs with
    | nil => simp [rmatch_once_nil, prefixCI]
    | cons c ct => simp [rmatch_once_cons, atomMatch, prefixCI, ih]

/-- Searching with a plain-character pattern is the case-insensitive
substring test. -/
theorem rsearch_lit (ps cs : List Char) :
    rsearch (ps.map (fun c => RTok.once (RAtom.achar c))) cs = substrCI ps cs := by
  induction cs with
  | nil =>
    show rmatch _ [] = prefixCI ps []
    exact rmatch_lit ps []
  | cons c ct ih => simp [rsearch, substrCI, rmatch_lit, ih]

/-- C1: the quantity normalizer of the featured-foods pipeline returns
a numeric stored value unchanged, the parsed decimal value of a
numeric string, and 0 when parsing fails or the value is absent; in
particular it maps 5 to 5, "3" to 3, "3.5" to 3.5, "2 kg" to 0 and an
absent value to 0.  It is a total function, so it never raises and
never blocks the surrounding query. -/
theorem c1_quantity_normalizer :
    (∀ n : JsNum, quantityNumeric (some (Val.num n)) = n) ∧
    (∀ s q, mongoParseDouble s = some q →
      quantityNumeric (some (Val.str s)) = JsNum.val q) ∧
    (∀ s, mongoParseDouble s = none →
      quantityNumeric (some (Val.str s)) = JsNum.val 0) ∧
    quantityNumeric none = JsNum.val 0 ∧
    quantityNumeric (some (Val.num (JsNum.val 5))) = JsNum.val 5 ∧
    quantityNumeric (some (Val.str "3")) = JsNum.val 3 ∧
    quantityNumeric (some (Val.str "3.5")) = JsNum.val (7 / 2) ∧
    quantityNumeric (some (Val.str "2 kg")) = JsNum.val 0 := by
  refine ⟨fun n => rfl, fun s q h => ?_, fun s h => ?_, rfl, rfl, ?_, ?_, ?_⟩
  · simp [quantityNumeric, h]
  · simp [quantityNumeric, h]
  · rfl
  · show JsNum.val ((3 : ℚ) + 5 / 10 ^ 1) = JsNum.val (7 / 2)
    norm_num
  · rfl

/-- Witness for C1 at concrete inputs discharging the parse
hypotheses. -/
theorem c1_quantity_normalizer_witness :
    quantityNumeric (some (Val.str "03")) = JsNum.val 3 ∧
    quantityNumeric (some (Val.str "x7")) = JsNum.val 0 := by
  have h := c1_quantity_normalizer
  exact ⟨h.2.1 "03" 3 (by decide), h.2.2.1 "x7" (by decide)⟩

/-- C9: the required-field validation of listing creation rejects any
input in which a required field is falsy even when present; in
particular an input whose quantity is the number 0 is rejected as
missing, while the same input with the string "0" is accepted. -/
theorem c9_falsy_required_field_rejected :
    (∀ (body : Doc) (now : ℚ) (st : StoreSt),
      truthy (getField body "quantity") = false →
      createListing body now st =
        Except.error (RouteErr.validation "Missing required fields")) ∧
    (∀ (body : Doc) (now : ℚ) (st : StoreSt),
      getField body "quantity" = some (Val.num (JsNum.val 0)) →
      createListing body now st =
        Except.error (RouteErr.validation "Missing required fields")) ∧
    (∀ (body : Doc) (now : ℚ) (st : StoreSt),
      truthy (getField body "foodName") = true →
      truthy (getField body "location") = true →
      truthy (getField body "expireAt") = true →
      truthy (getField body "userName") = true →
      truthy (getField body "userEmail") = true →
      getField body "quantity" = some (Val.str "0") →
      ∃ r, createListing body now st = Except.ok r) := by
  refine ⟨?_, ?_, ?_⟩
  · intro body now st h
    simp [createListing, missingRequired, h]
  · intro body now st h
    have ht : truthy (getField body "quantity") = false := by
      rw [h]; rfl
    simp [createListing, missingRequired, ht]
  · intro body now st h1 h2 h3 h4 h5 hq
    have ht : truthy (getField body "quantity") = true := by
      rw [hq]; rfl
    refine ⟨insertDoc (newFoodDoc body now) st, ?_⟩
    simp [createListing, missingRequired, h1, h2, h3, h4, h5, ht]

/-- Witness for C9: a fully supplied listing with quantity 0 is
rejected, and the same listing with quantity "0" is accepted. -/
theorem c9_falsy_required_field_rejected_witness :
    createListing
      [("foodName", Val.str "Rice"), ("quantity", Val.num (JsNum.val 0)),
       ("location", Val.str "Dhaka"), ("expireAt", Val.num (JsNum.val 1)),
       ("userName", Val.str "U"), ("userEmail", Val.str "u@e")] 0 ⟨0, []⟩ =
      Except.error (RouteErr.validation "Missing required fields") ∧
    ∃ r, createListing
      [("foodName", Val.str "Rice"), ("quantity", Val.str "0"),
       ("location", Val.str "Dhaka"), ("expireAt", Val.num (JsNum.val 1)),
       ("userName", Val.str "U"), ("userEmail", Val.str "u@e")] 0 ⟨0, []⟩ =
      Except.ok r := by
  constructor
  · exact c9_falsy_required_field_rejected.2.1 _ 0 ⟨0, []⟩ (by decide)
  · exact c9_falsy_required_field_rejected.2.2 _ 0 ⟨0, []⟩ (by decide) (by decide)
      (by decide) (by decide) (by decide) (by decide)

/-- C10: a listing whose quantity is a non-empty string that `Number`
cannot parse (such as "2 kg") passes validation, and the stored
listing's quantity is the NaN produced by numeric coercion — not the
original string and not 0. -/
theorem c10_nonnumeric_quantity_stored_as_nan :
    ∀ (body : Doc) (now : ℚ) (st : StoreSt) (s : String),
      getField body "quantity" = some (Val.str s) →
      s ≠ "" →
      jsStrToNumber s = JsNum.nan →
      truthy (getField body "foodName") = true →
      truthy (getField body "location") = true →
      truthy (getField body "expireAt") = true →
      truthy (getField body "userName") = true →
      truthy (getField body "userEmail") = true →
      createListing body now st =
        Except.ok
          (⟨st.nextId + 1,
            st.docs ++ [("_id", Val.oid st.nextId) :: newFoodDoc body now]⟩,
           Val.oid st.nextId) ∧
      getField (newFoodDoc body now) "quantity" = some (Val.num JsNum.nan) ∧
      Val.num JsNum.nan ≠ Val.str s ∧
      JsNum.nan ≠ JsNum.val 0 := by
  intro body now st s hq hne hnan h1 h2 h3 h4 h5
  have ht : truthy (getField body "quantity") = true := by
    rw [hq]
    simpa [truthy] using hne
  have hqv : getField (newFoodDoc body now) "quantity" =
      some (Val.num JsNum.nan) := by
    simp [newFoodDoc, getField, jsToNumberOpt, hq, jsToNumber, hnan]
  have hid : getField (newFoodDoc body now) "_id" = none := by
    simp [newFoodDoc, getField]
  refine ⟨?_, hqv, by simp, by simp⟩
  simp [createListing, missingRequired, h1, h2, h3, h4, h5, ht, insertDoc, hid]

/-- Witness for C10 at quantity "2 kg". -/
theorem c10_nonnumeric_quantity_stored_as_nan_witness :
    ∃ body : Doc,
      createListing body 0 ⟨0, []⟩ =
        Except.ok
          (⟨1, [("_id", Val.oid 0) :: newFoodDoc body 0]⟩, Val.oid 0) ∧
      getField (newFoodDoc body 0) "quantity" = some (Val.num JsNum.nan) := by
  refine ⟨[("foodName", Val.str "Rice"), ("quantity", Val.str "2 kg"),
    ("location", Val.str "Dhaka"), ("expireAt", Val.num (JsNum.val 1)),
    ("userName", Val.str "U"), ("userEmail", Val.str "u@e")], ?_, ?_⟩
  · exact (c10_nonnumeric_quantity_stored_as_nan _ 0 ⟨0, []⟩ "2 kg" (by decide)
      (by decide) (by decide) (by decide) (by decide) (by decide) (by decide)
      (by decide)).1
  · exact (c10_nonnumeric_quantity_stored_as_nan _ 0 ⟨0, []⟩ "2 kg" (by decide)
      (by decide) (by decide) (by decide) (by decide) (by decide) (by decide)
      (by decide)).2.1

/-- C5: under the store's unique-id guarantee, the request transition
reports true exactly when a listing with the id existed whose status
was not already `requested` (and it sets that status), and reports
false both when the status was already `requested` and when no listing
matched, without distinguishing the two. -/
theorem c5_mark_requested_reports_modification :
    ∀ (st : StoreSt) (id : Nat), st.docs.countP (hasOid id) ≤ 1 →
      (((markRequested id st).2 = true) ↔
        ∃ d ∈ st.docs, getField d "_id" = some (Val.oid id) ∧
          getField d "foodStatus" ≠ some (Val.str "requested")) ∧
      (∀ d2 ∈ (markRequested id st).1.docs,
        getField d2 "_id" = some (Val.oid id) →
        getField d2 "foodStatus" = some (Val.str "requested")) := by
  intro st id hU
  have hiff := updateDocs_modified_zero_iff (Val.oid id)
    [("foodStatus", Val.str "requested")] st.docs hU
  constructor
  · show decide (0 < (updateDocs (Val.oid id)
      [("foodStatus", Val.str "requested")] st.docs).2.2) = true ↔ _
    rw [decide_eq_true_iff]
    constructor
    · intro hpos
      by_contra hno
      push_neg at hno
      have hall : ∀ d ∈ st.docs, getField d "_id" = some (Val.oid id) →
          applySet [("foodStatus", Val.str "requested")] d = d := by
        intro d hd hid
        exact (setField_eq_self_iff d "foodStatus" (Val.str "requested")).mpr
          (hno d hd hid)
      have := hiff.mpr hall
      omega
    · rintro ⟨d, hd, hid, hst⟩
      rcases Nat.eq_zero_or_pos
        ((updateDocs (Val.oid id) [("foodStatus", Val.str "requested")]
          st.docs).2.2) with hz | hp
      · exact absurd ((setField_eq_self_iff _ _ _).mp (hiff.mp hz d hd hid)) hst
      · exact hp
  · intro d2 hd2 hid2
    exact updateDocs_requested_after id st.docs hU d2 hd2 hid2

/-- Witness for C5: an available listing is reported as modified and
ends up requested; a second call reports false. -/
theorem c5_mark_requested_reports_modification_witness :
    (markRequested 0
      ⟨1, [[("_id", Val.oid 0), ("foodStatus", Val.str "Available")]]⟩).2 =
      true ∧
    (markRequested 0
      ⟨1, [[("_id", Val.oid 0), ("foodStatus", Val.str "requested")]]⟩).2 =
      false := by
  constructor
  · exact (c5_mark_requested_reports_modification
      ⟨1, [[("_id", Val.oid 0), ("foodStatus", Val.str "Available")]]⟩ 0
      (by decide)).1.mpr
      ⟨[("_id", Val.oid 0), ("foodStatus", Val.str "Available")],
        by simp, by decide, by decide⟩
  · have h := (c5_mark_requested_reports_modification
      ⟨1, [[("_id", Val.oid 0), ("foodStatus", Val.str "requested")]]⟩ 0
      (by decide)).1
    by_contra hb
    simp only [Bool.not_eq_false] at hb
    rcases h.mp hb with ⟨d, hd, _, hst⟩
    rcases List.mem_singleton.mp hd with rfl
    exact hst (by decide)

/-- C6 counterexample: in the modifiedCount variant, updating an
existing listing with a patch that changes no field value answers
NotFound although a listing with the id exists. -/
theorem c6_counterexample_nochange_update_not_found :
    updateListingModified 1 [("foodName", Val.str "A")]
      ⟨2, [[("_id", Val.oid 1), ("foodName", Val.str "A")]]⟩ =
      Except.error
        (RouteErr.notFound "No document updated. It may not exist.") ∧
    getField [("_id", Val.oid 1), ("foodName", Val.str "A")] "_id" =
      some (Val.oid 1) := by
  exact ⟨rfl, rfl⟩

/-- C6 (amended): the matchedCount variant of the update answers
NotFound exactly when no listing with the id exists, so a no-change
patch on an existing listing succeeds there; the modifiedCount variant
answers NotFound exactly when no listing with the id exists or the
patch changes no stored field value, so a no-change patch on an
existing listing fails there. -/
theorem c6_update_not_found_semantics :
    (∀ (st : StoreSt) (id : Nat) (patch : Doc),
      (updateListingMatched id patch st =
          Except.error (RouteErr.notFound "Food item not found") ↔
        ∀ d ∈ st.docs, getField d "_id" ≠ some (Val.oid id))) ∧
    (∀ (st : StoreSt) (id : Nat) (patch : Doc),
      st.docs.countP (hasOid id) ≤ 1 →
      getField patch "expireAt" = none →
      (updateListingModified id patch st =
          Except.error
            (RouteErr.notFound "No document updated. It may not exist.") ↔
        ∀ d ∈ st.docs, getField d "_id" = some (Val.oid id) →
          applySet patch d = d)) := by
  constructor
  · intro st id patch
    have hm := updateDocs_matched_zero_iff (Val.oid id) patch st.docs
    have hdef : updateListingMatched id patch st =
        (if (updateDocs (Val.oid id) patch st.docs).2.1 = 0 then
          Except.error (RouteErr.notFound "Food item not found")
        else Except.ok ⟨st.nextId, (updateDocs (Val.oid id) patch st.docs).1⟩) :=
      rfl
    rw [hdef]
    by_cases h : (updateDocs (Val.oid id) patch st.docs).2.1 = 0
    · rw [if_pos h]
      exact iff_of_true rfl (hm.mp h)
    · rw [if_neg h]
      constructor
      · intro he
        exact absurd he (by simp)
      · intro hall
        exact absurd (hm.mpr hall) h
  · intro st id patch hU hE
    have hm := updateDocs_modified_zero_iff (Val.oid id) patch st.docs hU
    have ht : truthy (getField patch "expireAt") = false := by rw [hE]; rfl
    have hdef : updateListingModified id patch st =
        (if (updateDocs (Val.oid id) patch st.docs).2.2 = 0 then
          Except.error
            (RouteErr.notFound "No document updated. It may not exist.")
        else Except.ok ⟨st.nextId, (updateDocs (Val.oid id) patch st.docs).1⟩) := by
      simp only [updateListingModified, ht, Bool.false_eq_true, if_false]
      rfl
    rw [hdef]
    by_cases h : (updateDocs (Val.oid id) patch st.docs).2.2 = 0
    · rw [if_pos h]
      exact iff_of_true rfl (hm.mp h)
    · rw [if_neg h]
      constructor
      · intro he
        exact absurd he (by simp)
      · intro hall
        exact absurd (hm.mpr hall) h

/-- Witness for C6: in the empty store the matchedCount variant answers
NotFound, and on an existing listing the modifiedCount variant answers
NotFound for a no-change patch. -/
theorem c6_update_not_found_semantics_witness :
    updateListingMatched 1 [("foodName", Val.str "A")] ⟨0, []⟩ =
      Except.error (RouteErr.notFound "Food item not found") ∧
    updateListingModified 1 [("foodName", Val.str "A")]
      ⟨2, [[("_id", Val.oid 1), ("foodName", Val.str "A")]]⟩ =
      Except.error
        (RouteErr.notFound "No document updated. It may not exist.") := by
  constructor
  · exact (c6_update_not_found_semantics.1 ⟨0, []⟩ 1
      [("foodName", Val.str "A")]).mpr (by simp)
  · exact (c6_update_not_found_semantics.2
      ⟨2, [[("_id", Val.oid 1), ("foodName", Val.str "A")]]⟩ 1
      [("foodName", Val.str "A")] (by decide) (by decide)).mpr
      (by intro d hd hid; rcases List.mem_singleton.mp hd with rfl; decide)

/-- C8 counterexample: a caller-supplied `createdAt` field is not
preserved verbatim — the stored value is the creation date, not the
supplied value. -/
theorem c8_counterexample_created_at_overwritten :
    (createRequest [("createdAt", Val.str "yesterday")] 7 ⟨0, []⟩).1.docs =
      [[("_id", Val.oid 0), ("createdAt", Val.date (JsNum.val 7))]] ∧
    Val.date (JsNum.val 7) ≠ Val.str "yesterday" := by
  exact ⟨rfl, by simp⟩

/-- C8 (amended): request creation stores one new document in which
every payload field other than `createdAt` keeps its supplied value,
`createdAt` is the creation time (overwriting any supplied value), and
the stored document carries the identifier the call returns. -/
theorem c8_create_request_stores_payload :
    ∀ (payload : Doc) (now : ℚ) (st : StoreSt),
      ∃ stored : Doc,
        (createRequest payload now st).1.docs = st.docs ++ [stored] ∧
        (∀ k, k ≠ "createdAt" → k ≠ "_id" →
          getField stored k = getField payload k) ∧
        getField stored "createdAt" = some (Val.date (JsNum.val now)) ∧
        getField stored "_id" = some (createRequest payload now st).2 := by
  intro payload now st
  cases h : getField (setField "createdAt" (Val.date (JsNum.val now)) payload)
    "_id" with
  | none =>
    refine ⟨("_id", Val.oid st.nextId) ::
      setField "createdAt" (Val.date (JsNum.val now)) payload, ?_, ?_, ?_, ?_⟩
    · simp [createRequest, insertDoc, h]
    · intro k hk1 hk2
      have : getField (("_id", Val.oid st.nextId) ::
          setField "createdAt" (Val.date (JsNum.val now)) payload) k =
          getField (setField "createdAt" (Val.date (JsNum.val now)) payload) k := by
        simp only [getField]
        rw [if_neg (fun hh : "_id" = k => hk2 hh.symm)]
      rw [this, getField_setField_ne _ _ _ _ hk1]
    · have : getField (("_id", Val.oid st.nextId) ::
          setField "createdAt" (Val.date (JsNum.val now)) payload) "createdAt" =
          getField (setField "createdAt" (Val.date (JsNum.val now)) payload)
            "createdAt" := by
        simp [getField]
      rw [this, getField_setField_self]
    · simp [createRequest, insertDoc, h, getField]
  | some v =>
    refine ⟨setField "createdAt" (Val.date (JsNum.val now)) payload, ?_, ?_, ?_, ?_⟩
    · simp [createRequest, insertDoc, h]
    · intro k hk1 _
      exact getField_setField_ne _ _ _ _ hk1
    · exact getField_setField_self _ _ _
    · rw [h]
      simp [createRequest, insertDoc, h]

/-- Witness for C8 at a concrete payload. -/
theorem c8_create_request_stores_payload_witness :
    ∃ stored : Doc,
      (createRequest [("userEmail", Val.str "u@e")] 3 ⟨0, []⟩).1.docs =
        [] ++ [stored] ∧
      getField stored "userEmail" = some (Val.str "u@e") ∧
      getField stored "createdAt" = some (Val.date (JsNum.val 3)) := by
  obtain ⟨stored, h1, h2, h3, _⟩ :=
    c8_create_request_stores_payload [("userEmail", Val.str "u@e")] 3 ⟨0, []⟩
  refine ⟨stored, h1, ?_, h3⟩
  rw [h2 "userEmail" (by decide) (by decide)]
  rfl

theorem qnumOf_addQNum (x : Doc) : qnumOf (addQNum x) = qnumOf x := by
  unfold qnumOf addQNum
  rw [getField_setField_ne]
  decide

theorem sortKeyQN_addQNum (x : Doc) :
    sortKeyQN (addQNum x) = Val.num (qnumOf (addQNum x)) := by
  rw [qnumOf_addQNum]
  unfold sortKeyQN addQNum
  rw [getField_setField_self]
  rfl

theorem qnumOf_project (d : Doc) :
    qnumOf (projectDoc featuredProjKeys d) = qnumOf d := by
  unfold qnumOf projectDoc
  rw [getField_filter_kept]
  intro v
  rfl

theorem mem_getFeaturedAgg (docs : List Doc) (y : Doc)
    (h : y ∈ getFeaturedAgg docs) :
    ∃ x ∈ docs, foodAvailable x = true ∧
      y = projectDoc featuredProjKeys (addQNum x) := by
  unfold getFeaturedAgg at h
  rcases List.mem_map.mp h with ⟨z, hz, rfl⟩
  have hz2 : z ∈ sortLe featuredDesc ((docs.filter foodAvailable).map addQNum) :=
    (List.take_sublist _ _).subset hz
  have hz3 : z ∈ (docs.filter foodAvailable).map addQNum :=
    (sortLe_perm _ _).mem_iff.mp hz2
  rcases List.mem_map.mp hz3 with ⟨x, hx, rfl⟩
  rcases List.mem_filter.mp hx with ⟨hx1, hx2⟩
  exact ⟨x, hx1, hx2, rfl⟩

/-- C7 counterexample: the featured projection keeps the listing
identifier — the stored `_id` appears in the returned view. -/
theorem c7_counterexample_id_kept :
    getFeaturedAgg
      [[("_id", Val.oid 1), ("foodName", Val.str "Rice"),
        ("foodImage", Val.str "img"), ("quantity", Val.num (JsNum.val 2)),
        ("location", Val.str "Dhaka"), ("note", Val.str "n"),
        ("donorName", Val.str "D"), ("donorEmail", Val.str "d@e"),
        ("donorImage", Val.str "di"), ("foodStatus", Val.str "Available"),
        ("createdAt", Val.date (JsNum.val 0))]] =
      [[("_id", Val.oid 1), ("foodName", Val.str "Rice"),
        ("foodImage", Val.str "img"), ("quantity", Val.num (JsNum.val 2)),
        ("location", Val.str "Dhaka"), ("note", Val.str "n")]] ∧
    getField
      [("_id", Val.oid 1), ("foodName", Val.str "Rice"),
       ("foodImage", Val.str "img"), ("quantity", Val.num (JsNum.val 2)),
       ("location", Val.str "Dhaka"), ("note", Val.str "n")] "_id" =
      some (Val.oid 1) := by
  exact ⟨rfl, rfl⟩

/-- C7 (amended): every listing the featured view returns carries only
the fields foodName, foodImage, quantity, location, note and the
listing identifier `_id` (kept by the inclusion projection); the donor
fields are omitted, and the identifier of the underlying stored
listing is retained. -/
theorem c7_featured_projection :
    ∀ (docs : List Doc) (y : Doc), y ∈ getFeaturedAgg docs →
      (∀ kv ∈ y, kv.1 = "_id" ∨ kv.1 ∈ featuredProjKeys) ∧
      getField y "donorName" = none ∧
      getField y "donorEmail" = none ∧
      getField y "donorImage" = none ∧
      ∃ x ∈ docs, foodAvailable x = true ∧
        getField y "_id" = getField x "_id" := by
  intro docs y hy
  rcases mem_getFeaturedAgg docs y hy with ⟨x, hx, hav, rfl⟩
  refine ⟨?_, ?_, ?_, ?_, x, hx, hav, ?_⟩
  · intro kv hkv
    have hpred := List.of_mem_filter hkv
    rw [Bool.or_eq_true] at hpred
    rcases hpred with h | h
    · exact Or.inl (by simpa using h)
    · exact Or.inr (by simpa using h)
  · exact getField_filter_dropped _ _ _ (fun v => rfl)
  · exact getField_filter_dropped _ _ _ (fun v => rfl)
  · exact getField_filter_dropped _ _ _ (fun v => rfl)
  · unfold projectDoc
    rw [getField_filter_kept _ _ _ (fun v => rfl)]
    exact getField_setField_ne _ _ _ _ (by decide)

/-- Witness for C7 at a concrete store: the donor fields are absent
from the returned view and the identifier is retained. -/
theorem c7_featured_projection_witness :
    getField
      [("_id", Val.oid 1), ("foodName", Val.str "Rice"),
       ("foodImage", Val.str "img"), ("quantity", Val.num (JsNum.val 2)),
       ("location", Val.str "Dhaka"), ("note", Val.str "n")] "donorName" =
      none ∧
    ∃ x ∈ [[("_id", Val.oid 1), ("foodName", Val.str "Rice"),
        ("foodImage", Val.str "img"), ("quantity", Val.num (JsNum.val 2)),
        ("location", Val.str "Dhaka"), ("note", Val.str "n"),
        ("donorName", Val.str "D"), ("donorEmail", Val.str "d@e"),
        ("donorImage", Val.str "di"), ("foodStatus", Val.str "Available"),
        ("createdAt", Val.date (JsNum.val 0))]],
      foodAvailable x = true ∧
      getField
        [("_id", Val.oid 1), ("foodName", Val.str "Rice"),
         ("foodImage", Val.str "img"), ("quantity", Val.num (JsNum.val 2)),
         ("location", Val.str "Dhaka"), ("note", Val.str "n")] "_id" =
        getField x "_id" := by
  have h := c7_featured_projection
    [[("_id", Val.oid 1), ("foodName", Val.str "Rice"),
      ("foodImage", Val.str "img"), ("quantity", Val.num (JsNum.val 2)),
      ("location", Val.str "Dhaka"), ("note", Val.str "n"),
      ("donorName", Val.str "D"), ("donorEmail", Val.str "d@e"),
      ("donorImage", Val.str "di"), ("foodStatus", Val.str "Available"),
      ("createdAt", Val.date (JsNum.val 0))]]
    [("_id", Val.oid 1), ("foodName", Val.str "Rice"),
     ("foodImage", Val.str "img"), ("quantity", Val.num (JsNum.val 2)),
     ("location", Val.str "Dhaka"), ("note", Val.str "n")]
    (by decide)
  exact ⟨h.2.1, h.2.2.2.2⟩

/-- C2 counterexample: the raw featured variant does not order by
descending normalized quantity — on a store holding an available
listing with numeric quantity 5 and one with string quantity "3", the
BSON sort places the string first although its normalized quantity is
smaller. -/
theorem c2_counterexample_raw_sort_order :
    ¬ (getFeaturedRaw
        [[("_id", Val.oid 1), ("foodName", Val.str "A"),
          ("quantity", Val.num (JsNum.val 5)),
          ("foodStatus", Val.str "Available")],
         [("_id", Val.oid 2), ("foodName", Val.str "B"),
          ("quantity", Val.str "3"),
          ("foodStatus", Val.str "Available")]]).Pairwise
      (fun a b => jnumLe (qnumOf b) (qnumOf a) = true) := by
  intro h
  have he : getFeaturedRaw
      [[("_id", Val.oid 1), ("foodName", Val.str "A"),
        ("quantity", Val.num (JsNum.val 5)),
        ("foodStatus", Val.str "Available")],
       [("_id", Val.oid 2), ("foodName", Val.str "B"),
        ("quantity", Val.str "3"),
        ("foodStatus", Val.str "Available")]] =
      [[("_id", Val.oid 2), ("foodName", Val.str "B"),
        ("quantity", Val.str "3"), ("foodStatus", Val.str "Available")],
       [("_id", Val.oid 1), ("foodName", Val.str "A"),
        ("quantity", Val.num (JsNum.val 5)),
        ("foodStatus", Val.str "Available")]] := by decide
  rw [he] at h
  rcases List.pairwise_cons.mp h with ⟨hh, _⟩
  have hx := hh _ (List.mem_singleton_self _)
  exact absurd hx (by decide)

/-- C2 (amended): both featured variants return at most 6 listings,
all drawn from the Available listings; the aggregation variant orders
them by descending normalized quantity, while the raw variant orders
them by descending raw BSON `quantity` value (which coincides with the
normalized order only when the stored quantities are uniformly
numeric). -/
theorem c2_featured_size_status_order :
    ∀ docs : List Doc,
      (getFeaturedAgg docs).length ≤ 6 ∧
      (∀ y ∈ getFeaturedAgg docs, ∃ x ∈ docs, foodAvailable x = true ∧
        y = projectDoc featuredProjKeys (addQNum x)) ∧
      (getFeaturedAgg docs).Pairwise
        (fun a b => jnumLe (qnumOf b) (qnumOf a) = true) ∧
      (getFeaturedRaw docs).length ≤ 6 ∧
      (∀ y ∈ getFeaturedRaw docs, y ∈ docs ∧ foodAvailable y = true) ∧
      (getFeaturedRaw docs).Pairwise
        (fun a b => valLe (rawQKey b) (rawQKey a) = true) := by
  intro docs
  have htransF : ∀ a b c : Doc, featuredDesc a b = true → featuredDesc b c = true →
      featuredDesc a c = true := by
    intro a b c h1 h2
    exact valLe_trans _ _ _ h2 h1
  have htotF : ∀ a b : Doc, featuredDesc a b || featuredDesc b a := by
    intro a b
    rw [Bool.or_comm]
    exact valLe_total _ _
  have htransR : ∀ a b c : Doc, rawQDesc a b = true → rawQDesc b c = true →
      rawQDesc a c = true := by
    intro a b c h1 h2
    exact valLe_trans _ _ _ h2 h1
  have htotR : ∀ a b : Doc, rawQDesc a b || rawQDesc b a := by
    intro a b
    rw [Bool.or_comm]
    exact valLe_total _ _
  refine ⟨?_, ?_, ?_, ?_, ?_, ?_⟩
  · unfold getFeaturedAgg
    simp only [List.length_map, List.length_take]
    omega
  · intro y hy
    exact mem_getFeaturedAgg docs y hy
  · have hS := sortLe_sorted featuredDesc htransF htotF
      ((docs.filter foodAvailable).map addQNum)
    have hkey : ∀ d ∈ sortLe featuredDesc ((docs.filter foodAvailable).map addQNum),
        sortKeyQN d = Val.num (qnumOf d) := by
      intro d hd
      have : d ∈ (docs.filter foodAvailable).map addQNum :=
        (sortLe_perm _ _).mem_iff.mp hd
      rcases List.mem_map.mp this with ⟨x, _, rfl⟩
      exact sortKeyQN_addQNum x
    have hS2 : (sortLe featuredDesc
        ((docs.filter foodAvailable).map addQNum)).Pairwise
        (fun a b => jnumLe (qnumOf b) (qnumOf a) = true) := by
      refine pairwise_imp_mem ?_ hS
      intro a b ha hb hr
      have hra : sortKeyQN a = Val.num (qnumOf a) := hkey a ha
      have hrb : sortKeyQN b = Val.num (qnumOf b) := hkey b hb
      have : featuredDesc a b = true := hr
      rw [featuredDesc, hra, hrb] at this
      exact this
    have hT : ((sortLe featuredDesc
        ((docs.filter foodAvailable).map addQNum)).take 6).Pairwise
        (fun a b => jnumLe (qnumOf b) (qnumOf a) = true) :=
      hS2.sublist (List.take_sublist _ _)
    unfold getFeaturedAgg
    rw [List.pairwise_map]
    refine hT.imp ?_
    intro a b hr
    rw [qnumOf_project, qnumOf_project]
    exact hr
  · unfold getFeaturedRaw
    simp only [List.length_take]
    omega
  · intro y hy
    have h1 : y ∈ sortLe rawQDesc (docs.filter foodAvailable) :=
      (List.take_sublist _ _).subset hy
    have h2 : y ∈ docs.filter foodAvailable := (sortLe_perm _ _).mem_iff.mp h1
    exact ⟨(List.mem_filter.mp h2).1, (List.mem_filter.mp h2).2⟩
  · have hS := sortLe_sorted rawQDesc htransR htotR (docs.filter foodAvailable)
    exact (hS.sublist (List.take_sublist _ _)).imp (fun hr => hr)

/-- Witness for C2 at a concrete two-listing store. -/
theorem c2_featured_size_status_order_witness :
    (getFeaturedAgg
      [[("_id", Val.oid 1), ("foodName", Val.str "A"),
        ("quantity", Val.num (JsNum.val 5)),
        ("foodStatus", Val.str "Available")],
       [("_id", Val.oid 2), ("foodName", Val.str "B"),
        ("quantity", Val.str "3"),
        ("foodStatus", Val.str "requested")]]).length ≤ 6 ∧
    (getFeaturedAgg
      [[("_id", Val.oid 1), ("foodName", Val.str "A"),
        ("quantity", Val.num (JsNum.val 5)),
        ("foodStatus", Val.str "Available")],
       [("_id", Val.oid 2), ("foodName", Val.str "B"),
        ("quantity", Val.str "3"),
        ("foodStatus", Val.str "requested")]]).Pairwise
      (fun a b => jnumLe (qnumOf b) (qnumOf a) = true) := by
  have h := c2_featured_size_status_order
    [[("_id", Val.oid 1), ("foodName", Val.str "A"),
      ("quantity", Val.num (JsNum.val 5)),
      ("foodStatus", Val.str "Available")],
     [("_id", Val.oid 2), ("foodName", Val.str "B"),
      ("quantity", Val.str "3"),
      ("foodStatus", Val.str "requested")]]
  exact ⟨h.1, h.2.2.1⟩

/-- Whether a patch only ever writes `Available` or `requested` into
the `foodStatus` field (patches not touching the field qualify). -/
def patchKeepsStatus (patch : Doc) : Bool :=
  patch.all (fun kv => kv.1 != "foodStatus" ||
    (kv.2 == Val.str "Available" || kv.2 == Val.str "requested"))

/-- Restriction of the operations under which the status invariant is
preserved: the caller-supplied update patch must keep `foodStatus`
inside the enum; the other operations are unrestricted. -/
def opOK : Op → Bool
  | Op.update _ patch => patchKeepsStatus patch
  | _ => true

theorem statusEnumB_applySet (patch d : Doc)
    (hp : patchKeepsStatus patch = true) (hd : statusEnumB d = true) :
    statusEnumB (applySet patch d) = true := by
  rcases getField_applySet_cases patch d "foodStatus" with h | ⟨v, hv, h⟩
  · unfold statusEnumB at hd ⊢
    rw [h]
    exact hd
  · have hkv := List.all_eq_true.mp hp _ hv
    simp only [bne_self_eq_false, Bool.false_or, Bool.or_eq_true,
      beq_iff_eq] at hkv
    unfold statusEnumB
    rw [h]
    rcases hkv with rfl | rfl <;> simp

theorem getField_newFoodDoc_status (body : Doc) (now : ℚ) :
    getField (newFoodDoc body now) "foodStatus" = some (Val.str "Available") :=
  rfl

theorem getField_newFoodDoc_id (body : Doc) (now : ℚ) :
    getField (newFoodDoc body now) "_id" = none :=
  rfl

theorem applyOp_preserves (st : StoreSt) (op : Op) (hok : opOK op = true)
    (hinv : statusInvariant st = true) : statusInvariant (applyOp st op) = true := by
  have hinv2 : ∀ d ∈ st.docs, statusEnumB d = true :=
    List.all_eq_true.mp hinv
  cases op with
  | create body now =>
    show statusInvariant
      (match createListing body now st with
       | Except.ok r => r.1
       | Except.error _ => st) = true
    unfold createListing
    by_cases hm : missingRequired body = true
    · rw [if_pos hm]
      exact hinv
    · rw [if_neg hm]
      show statusInvariant (insertDoc (newFoodDoc body now) st).1 = true
      unfold insertDoc
      rw [getField_newFoodDoc_id]
      refine List.all_eq_true.mpr ?_
      intro d hd
      rcases List.mem_append.mp hd with hd | hd
      · exact hinv2 d hd
      · rcases List.mem_singleton.mp hd with rfl
        show statusEnumB (("_id", Val.oid st.nextId) :: newFoodDoc body now) = true
        unfold statusEnumB
        have : getField (("_id", Val.oid st.nextId) :: newFoodDoc body now)
            "foodStatus" = some (Val.str "Available") := rfl
        rw [this]
        simp
  | markReq id =>
    show statusInvariant (markRequested id st).1 = true
    refine List.all_eq_true.mpr ?_
    intro d hd
    have hd2 : d ∈ (updateDocs (Val.oid id)
        [("foodStatus", Val.str "requested")] st.docs).1 := hd
    rcases mem_updateDocs _ _ _ _ hd2 with h | ⟨d0, hd0, rfl⟩
    · exact hinv2 d h
    · exact statusEnumB_applySet _ _ (by decide) (hinv2 d0 hd0)
  | update id patch =>
    show statusInvariant
      (match updateListingMatched id patch st with
       | Except.ok st2 => st2
       | Except.error _ => st) = true
    have hdef : updateListingMatched id patch st =
        (if (updateDocs (Val.oid id) patch st.docs).2.1 = 0 then
          Except.error (RouteErr.notFound "Food item not found")
        else Except.ok ⟨st.nextId, (updateDocs (Val.oid id) patch st.docs).1⟩) :=
      rfl
    rw [hdef]
    by_cases hm : (updateDocs (Val.oid id) patch st.docs).2.1 = 0
    · rw [if_pos hm]
      exact hinv
    · rw [if_neg hm]
      refine List.all_eq_true.mpr ?_
      intro d hd
      rcases mem_updateDocs _ _ _ _ hd with h | ⟨d0, hd0, rfl⟩
      · exact hinv2 d h
      · exact statusEnumB_applySet _ _ hok (hinv2 d0 hd0)
  | remove id =>
    show statusInvariant
      (match deleteListing id st with
       | Except.ok st2 => st2
       | Except.error _ => st) = true
    unfold deleteListing
    by_cases hm : (deleteDocs (Val.oid id) st.docs).2 = 0
    · rw [if_pos hm]
      exact hinv
    · rw [if_neg hm]
      refine List.all_eq_true.mpr ?_
      intro d hd
      exact hinv2 d (mem_deleteDocs _ _ _ hd)

/-- C3 counterexample: a reachable state violates the status enum —
create a valid listing, then update it with the caller-supplied patch
setting `foodStatus` to a third value; the stored status is neither
`Available` nor `requested`. -/
theorem c3_counterexample_status_escapes_enum :
    statusInvariant
      (applyOps
        [Op.create
          [("foodName", Val.str "Rice"), ("quantity", Val.num (JsNum.val 2)),
           ("location", Val.str "Dhaka"), ("expireAt", Val.num (JsNum.val 1)),
           ("userName", Val.str "U"), ("userEmail", Val.str "u@e")] 0,
         Op.update 0 [("foodStatus", Val.str "eaten")]]
        ⟨0, []⟩) = false := by
  decide

/-- C3 (amended): the status invariant — every stored listing's
`foodStatus` is `Available` or `requested` — holds in every state
reachable from the empty store by listing creation, the request
transition, deletion, and updates whose patches only ever write
`Available` or `requested` into `foodStatus`; an unrestricted update
patch can violate it. -/
theorem c3_status_invariant_reachable :
    ∀ ops : List Op, (∀ op ∈ ops, opOK op = true) →
      statusInvariant (applyOps ops ⟨0, []⟩) = true := by
  have hgen : ∀ (ops : List Op) (st : StoreSt), (∀ op ∈ ops, opOK op = true) →
      statusInvariant st = true → statusInvariant (applyOps ops st) = true := by
    intro ops
    induction ops with
    | nil => exact fun st _ h => h
    | cons op rest ih =>
      intro st hops hinv
      show statusInvariant (applyOps rest (applyOp st op)) = true
      exact ih (applyOp st op)
        (fun o ho => hops o (List.mem_cons_of_mem _ ho))
        (applyOp_preserves st op (hops op (List.mem_cons_self _ _)) hinv)
  exact fun ops hops => hgen ops ⟨0, []⟩ hops rfl

/-- Witness for C3: a run that creates a listing and marks it requested
keeps every status inside the enum. -/
theorem c3_status_invariant_reachable_witness :
    statusInvariant
      (applyOps
        [Op.create
          [("foodName", Val.str "Rice"), ("quantity", Val.num (JsNum.val 2)),
           ("location", Val.str "Dhaka"), ("expireAt", Val.num (JsNum.val 1)),
           ("userName", Val.str "U"), ("userEmail", Val.str "u@e")] 0,
         Op.markReq 0]
        ⟨0, []⟩) = true :=
  c3_status_invariant_reachable _ (by decide)

/-- Modelled from the spec: whether a listing passes the browse filter
the specification describes — its foodName is a string containing the
search text as a case-insensitive substring. -/
def specFoodNameMatch (d : Doc) (s : String) : Bool :=
  match getField d "foodName" with
  | some (Val.str n) => specContainsCI n s
  | _ => false

/-- C4 counterexample: with search text ".", the regex filter returns a
listing whose foodName "Egg" does not contain "." as a substring, so
the browse search is not plain substring containment for arbitrary
search text. -/
theorem c4_counterexample_dot_matches_everything :
    listAvailable (some ".") none
      [[("_id", Val.oid 1), ("foodName", Val.str "Egg"),
        ("foodStatus", Val.str "Available")]] =
      some [[("_id", Val.oid 1), ("foodName", Val.str "Egg"),
        ("foodStatus", Val.str "Available")]] ∧
    specContainsCI "Egg" "." = false := by
  constructor
  · have hp : parseTokens ".".toList = some [RTok.once RAtom.adot] := rfl
    have hm : regexFilterDoc [RTok.once RAtom.adot]
        [("_id", Val.oid 1), ("foodName", Val.str "Egg"),
         ("foodStatus", Val.str "Available")] = true := by
      show rsearch [RTok.once RAtom.adot] "Egg".toList = true
      have : "Egg".toList = ['E', 'g', 'g'] := rfl
      rw [this]
      simp [rsearch, rmatch_once_cons, atomMatch, rmatch_nil_pat]
    show listAvailable (some ".") none _ = _
    simp only [listAvailable]
    rw [if_neg (by decide), hp]
    simp only [applyExpireSort, List.filter_cons, List.filter_nil, hm]
    rfl
  · rfl

/-- C4 (amended): for a non-empty search text containing no regex
metacharacters, the browse search returns exactly the Available
listings whose foodName contains the search text as a case-insensitive
substring (listings whose foodName is missing or not a string never
match); for search text with regex meaning — such as ".", "(" or
"*" — the filter behaves as a regular expression or fails, not as
substring containment. -/
theorem c4_search_is_substring_for_plain_text :
    ∀ (s : String) (sort : Option String) (docs : List Doc),
      s ≠ "" →
      (∀ c ∈ s.toList, litChar c = true) →
      ∃ r, listAvailable (some s) sort docs = some r ∧
        List.Perm r (docs.filter
          (fun d => foodAvailable d && specFoodNameMatch d s)) := by
  intro s sort docs hne hlit
  have hp := parseTokens_lit s.toList hlit
  have hfil : ∀ d ∈ docs,
      (foodAvailable d && regexFilterDoc
        (s.toList.map (fun c => RTok.once (RAtom.achar c))) d) =
      (foodAvailable d && specFoodNameMatch d s) := by
    intro d _
    have : regexFilterDoc
        (s.toList.map (fun c => RTok.once (RAtom.achar c))) d =
        specFoodNameMatch d s := by
      unfold regexFilterDoc specFoodNameMatch
      cases hgf : getField d "foodName" with
      | none => rfl
      | some v =>
        cases v with
        | str n =>
          show rsearch _ n.toList = specContainsCI n s
          rw [rsearch_lit]
          rfl
        | num m => rfl
        | date t => rfl
        | oid k => rfl
        | bool b => rfl
        | null => rfl
    rw [this]
  have hdef : listAvailable (some s) sort docs =
      some (applyExpireSort sort (docs.filter
        (fun d => foodAvailable d && regexFilterDoc
          (s.toList.map (fun c => RTok.once (RAtom.achar c))) d))) := by
    simp only [listAvailable]
    rw [if_neg hne, hp]
  have heq : docs.filter
      (fun d => foodAvailable d && regexFilterDoc
        (s.toList.map (fun c => RTok.once (RAtom.achar c))) d) =
      docs.filter (fun d => foodAvailable d && specFoodNameMatch d s) :=
    List.filter_congr hfil
  refine ⟨_, hdef, ?_⟩
  have hperm := applyExpireSort_perm sort (docs.filter
    (fun d => foodAvailable d && regexFilterDoc
      (s.toList.map (fun c => RTok.once (RAtom.achar c))) d))
  exact hperm.trans (by rw [heq])

/-- Witness for C4 at search text "rice" over a concrete store. -/
theorem c4_search_is_substring_for_plain_text_witness :
    ∃ r, listAvailable (some "rice") none
      [[("_id", Val.oid 1), ("foodName", Val.str "Brown Rice"),
        ("foodStatus", Val.str "Available")],
       [("_id", Val.oid 2), ("foodName", Val.str "Egg"),
        ("foodStatus", Val.str "Available")]] = some r ∧
      List.Perm r
        ([[("_id", Val.oid 1), ("foodName", Val.str "Brown Rice"),
           ("foodStatus", Val.str "Available")],
          [("_id", Val.oid 2), ("foodName", Val.str "Egg"),
           ("foodStatus", Val.str "Available")]].filter
          (fun d => foodAvailable d && specFoodNameMatch d "rice")) :=
  c4_search_is_substring_for_plain_text "rice" none
    [[("_id", Val.oid 1), ("foodName", Val.str "Brown Rice"),
      ("foodStatus", Val.str "Available")],
     [("_id", Val.oid 2), ("foodName", Val.str "Egg"),
      ("foodStatus", Val.str "Available")]]
    (by decide) (by decide)

end FoodCircle
